import Mathlib

/-!
Verification of the ozy-cli git-setup pipeline.

Strings are embedded as lists of characters (`Str`); the JavaScript string
operations used by the source (`trim`, `split`, `startsWith`, `substring`,
`pop`, template literals) are modelled as explicit functions on `Str`.
External collaborators (filesystem, the ssh-config grammar engine, the
remote ssh probe, the git-config store) are modelled as oracle parameters
of an environment structure, so that every code path of the program itself
is an executable Lean function.
-/

/-- Character lists standing for JavaScript strings. -/
abbrev Str := List Char

/-- JavaScript whitespace characters relevant to `String.prototype.trim`
(ASCII fragment: space, tab, line feed, carriage return, vertical tab,
form feed). -/
def isJSSpace (c : Char) : Bool :=
  c == ' ' || c == '\t' || c == '\n' || c == '\r' || c == '\x0b' || c == '\x0c'

/-- JavaScript `s.trim()`: drop whitespace from both ends. -/
def trim (s : Str) : Str :=
  ((s.dropWhile isJSSpace).reverse.dropWhile isJSSpace).reverse

/-- JavaScript `s.startsWith(p)`. -/
def startsWith (p s : Str) : Bool :=
  List.isPrefixOf p s

/-- JavaScript `s.split(sep)` for a one-character separator: the list of
(possibly empty) chunks between occurrences of `sep`; always non-empty. -/
def splitOnChar (sep : Char) : Str → List Str
  | [] => [[]]
  | c :: rest =>
    if c = sep then [] :: splitOnChar sep rest
    else
      match splitOnChar sep rest with
      | [] => [[c]]
      | x :: xs => (c :: x) :: xs

/-- First chunk of a split, as in JavaScript `s.split(sep)[0]`. -/
def splitHead (sep : Char) (s : Str) : Str :=
  (splitOnChar sep s).headD []

/-- Last chunk of a split, as in JavaScript `s.split(sep).pop()` (the
split is never empty, so `pop` never yields `undefined`). -/
def splitLast (sep : Char) (s : Str) : Str :=
  (splitOnChar sep s).getLastD []

/-- String concatenation of JavaScript `Array.prototype.join` with the
newline separator. -/
def joinNL : List Str → Str
  | [] => []
  | [x] => x
  | x :: rest => x ++ '\n' :: joinNL rest

/-- Replace every backslash with a forward slash, as in the source's
`identityFilePath.replaceAll("\\", "/")`. -/
def replaceBackslashes (s : Str) : Str :=
  s.map (fun c => if c = '\\' then '/' else c)

/-- The tagged result type of `src/unnamed/part_000` (`result.ts`): `Ok`
carries a value, `Err` carries an error kind, a human-readable reason and
a silence flag (the source's `Err` defaults `silent` to `false`). -/
inductive Result (T : Type) (E : Type) where
  | ok (value : T) : Result T E
  | err (error : E) (reason : Str) (silent : Bool) : Result T E
deriving DecidableEq

/-- Error kinds of `getSSHConfig` in `src/src/common/ssh.ts`. -/
inductive GetSSHConfigError where
  | SSHConfigFileMissingError
  | ParseError
  | DuplicateHostError
  | EntryNotAHostKeyValuePairError
  | MissingHostNameError
  | MissingUserError
  | MalformedError
deriving DecidableEq

/-- The TypeScript string value of each `GetSSHConfigError` enum member —
note the source misspells the value of `DuplicateHostError` as
`DupublicatHostError`. Template literals interpolate these values. -/
def GetSSHConfigError.text : GetSSHConfigError → Str
  | .SSHConfigFileMissingError => ("SSHConfigFileMissingError").toList
  | .ParseError => ("ParseError").toList
  | .DuplicateHostError => ("DupublicatHostError").toList
  | .EntryNotAHostKeyValuePairError => ("EntryNotAHostKeyValuePairError").toList
  | .MissingHostNameError => ("MissingHostNameError").toList
  | .MissingUserError => ("MissingUserError").toList
  | .MalformedError => ("MalformedError").toList

/-- A JavaScript value as seen by the config-parsing loop: either a string
or some non-string value.  `nonstr` carries the text the value renders to
when interpolated or JSON-stringified, which the model leaves abstract. -/
inductive SSHValue where
  | str (s : Str) : SSHValue
  | nonstr (rendering : Str) : SSHValue
deriving DecidableEq

/-- `JSON.stringify` as used for diagnostics (inner quote escaping of the
external JSON serializer is not modelled; no claim depends on it). -/
def jsonStringify : SSHValue → Str
  | .str s => '"' :: s ++ ['"']
  | .nonstr r => r

/-- A nested line of a `Host` section as produced by the external
`ssh-config` grammar engine: a comment, or a `param`/`value` pair. -/
inductive InnerLine where
  | comment : InnerLine
  | entry (param : Str) (value : SSHValue) : InnerLine
deriving DecidableEq

/-- A top-level line as produced by the external `ssh-config` grammar
engine: a comment, a plain directive (no `config` property), or a section
(`config` property with nested lines). -/
inductive SSHLine where
  | comment : SSHLine
  | directive (param : Str) (value : SSHValue) : SSHLine
  | sec (param : Str) (value : SSHValue) (config : List InnerLine) : SSHLine
deriving DecidableEq

/-- The zod section schema's output (`SSHConfigSectionSchema`): required
`HostName` and `User`, optional `IdentityFile`, `AddKeysToAgent`,
`IdentitiesOnly`. -/
structure SSHSection where
  HostName : Str
  User : Str
  IdentityFile : Option Str
  AddKeysToAgent : Option Str
  IdentitiesOnly : Option Str
deriving DecidableEq

/-- A JavaScript record of string keys and values, keyed in insertion
order; assignment overwrites an existing key in place. -/
def rset (r : List (Str × Str)) (k v : Str) : List (Str × Str) :=
  match r with
  | [] => [(k, v)]
  | (k2, v2) :: rest => if k2 = k then (k, v) :: rest else (k2, v2) :: rset rest k v

/-- Key lookup in a JavaScript record. -/
def rget (r : List (Str × Str)) (k : Str) : Option Str :=
  match r with
  | [] => none
  | (k2, v2) :: rest => if k2 = k then some v2 else rget rest k

/-- `SSHConfigSectionSchema.safeParse` over a record whose values are all
strings: succeeds exactly when `HostName` and `User` are present, and
strips unknown keys. -/
def sectionSchemaParse (r : List (Str × Str)) : Option SSHSection :=
  match rget r (("HostName").toList), rget r (("User").toList) with
  | some hn, some u =>
    some ⟨hn, u, rget r (("IdentityFile").toList), rget r (("AddKeysToAgent").toList),
          rget r (("IdentitiesOnly").toList)⟩
  | _, _ => none

/-- The materialized host mapping: alias → section, in insertion order
(JavaScript objects enumerate string keys in insertion order). -/
abbrev SSHConfigHosts := List (Str × SSHSection)

/-- `host in hosts` / `sshConfigFile[sshHost]`: first-match key lookup. -/
def hget (hosts : SSHConfigHosts) (k : Str) : Option SSHSection :=
  match hosts with
  | [] => none
  | (k2, v2) :: rest => if k2 = k then some v2 else hget rest k

/-- `Object.keys` of the mapping, in insertion order. -/
def hostKeys (hosts : SSHConfigHosts) : List Str :=
  hosts.map Prod.fst

/-- Reason text for a duplicate `Host` alias. -/
def dupReason (path host : Str) : Str :=
  ("ssh file \x27").toList ++ path ++ ("\x27 contains duplicate Hosts named \x27").toList
    ++ host ++ ("\x27").toList

/-- Reason text for a non-`Host` top-level entry. -/
def notHostReason (path p vs : Str) : Str :=
  ("Unexpected top-level entry in ssh file \x27").toList ++ path ++ ("\x27: ").toList
    ++ p ++ ('=' :: vs)

/-- Reason text for a `Host` entry with a non-string value. -/
def nonStringHostReason (p vs : Str) : Str :=
  ("top-level Host ").toList ++ p ++ (" has value of non string \x27").toList
    ++ vs ++ ("\x27").toList

/-- Reason text for a top-level `Host` entry without a section body. -/
def noSectionReason (path p vs : Str) : Str :=
  ("top-level non-section detected in ssh file \x27").toList ++ path
    ++ ("\x27: ").toList ++ p ++ ('=' :: vs)

/-- Reason text for a nested entry whose value is not a string. -/
def innerNonStringReason (path host p vr : Str) : Str :=
  ("ssh file \x27").toList ++ path ++ ("\x27 at Host \x27").toList ++ host
    ++ ("\x27 at key \x27").toList ++ p ++ ("\x27 has non string value \x27").toList
    ++ vr ++ ("\x27").toList

/-- Rendering of the external zod library's validation diagnostic
(`result.error.toString()`); opaque to this model, no claim depends on
its text. -/
def zodErrorText : Str :=
  ("[zod validation error]").toList

/-- Reason text for a section rejected by the zod schema. -/
def schemaFailReason (host : Str) : Str :=
  ("malformed section at Host \x27").toList ++ host ++ ("\x27 due to ").toList
    ++ zodErrorText

/-- The inner loop of `getSSHConfig` over one Host section: skip comments,
reject non-string values with `MalformedError`, otherwise accumulate
`keyValues[innerParam] = innerValue`. -/
def readSection (path host : Str) :
    List InnerLine → List (Str × Str) → Result (List (Str × Str)) GetSSHConfigError
  | [], kv => Result.ok kv
  | InnerLine.comment :: rest, kv => readSection path host rest kv
  | InnerLine.entry p (SSHValue.str v) :: rest, kv =>
      readSection path host rest (rset kv p v)
  | InnerLine.entry p (SSHValue.nonstr r) :: _, _ =>
      Result.err GetSSHConfigError.MalformedError (innerNonStringReason path host p r) false

/-- The accumulation `readSection` performs when every value is a string. -/
def collectKV : List InnerLine → List (Str × Str) → List (Str × Str)
  | [], kv => kv
  | InnerLine.comment :: rest, kv => collectKV rest kv
  | InnerLine.entry p (SSHValue.str v) :: rest, kv => collectKV rest (rset kv p v)
  | InnerLine.entry _ (SSHValue.nonstr _) :: rest, kv => collectKV rest kv

/-- The top-level loop of `getSSHConfig` over the parsed lines, with the
accumulated `hosts` record.  Check order per the source: comment skip,
`curParam !== 'Host'`, non-string value, missing `config` property,
duplicate host, nested lines, zod schema, then `hosts[host] = data`. -/
def hostsLoop (path : Str) :
    List SSHLine → SSHConfigHosts → Result SSHConfigHosts GetSSHConfigError
  | [], hosts => Result.ok hosts
  | SSHLine.comment :: rest, hosts => hostsLoop path rest hosts
  | SSHLine.directive curParam value :: _, _ =>
      if curParam ≠ ("Host").toList then
        Result.err GetSSHConfigError.EntryNotAHostKeyValuePairError
          (notHostReason path curParam (jsonStringify value)) false
      else
        match value with
        | SSHValue.nonstr _ =>
          Result.err GetSSHConfigError.EntryNotAHostKeyValuePairError
            (nonStringHostReason curParam (jsonStringify value)) false
        | SSHValue.str _ =>
          Result.err GetSSHConfigError.EntryNotAHostKeyValuePairError
            (noSectionReason path curParam (jsonStringify value)) false
  | SSHLine.sec curParam value cfg :: rest, hosts =>
      if curParam ≠ ("Host").toList then
        Result.err GetSSHConfigError.EntryNotAHostKeyValuePairError
          (notHostReason path curParam (jsonStringify value)) false
      else
        match value with
        | SSHValue.nonstr _ =>
          Result.err GetSSHConfigError.EntryNotAHostKeyValuePairError
            (nonStringHostReason curParam (jsonStringify value)) false
        | SSHValue.str host =>
          if (hget hosts host).isSome then
            Result.err GetSSHConfigError.DuplicateHostError (dupReason path host) false
          else
            match readSection path host cfg [] with
            | Result.err e r s => Result.err e r s
            | Result.ok keyValues =>
              match sectionSchemaParse keyValues with
              | none =>
                Result.err GetSSHConfigError.MalformedError (schemaFailReason host) false
              | some data => hostsLoop path rest (hosts ++ [(host, data)])

/-- State of the SSH configuration file as seen through the filesystem and
the external `ssh-config` grammar engine: absent, unreadable/unparseable
(an exception whose rendering is carried), or parsed into lines. -/
inductive SSHFileState where
  | missing : SSHFileState
  | unparseable (diag : Str) : SSHFileState
  | parsed (lines : List SSHLine) : SSHFileState

/-- `getSSHConfig` of `src/src/common/ssh.ts`: missing file, parse
exception, or the line-by-line materialization loop. -/
def getSSHConfig (path : Str) (st : SSHFileState) :
    Result SSHConfigHosts GetSSHConfigError :=
  match st with
  | SSHFileState.missing =>
      Result.err GetSSHConfigError.SSHConfigFileMissingError
        (("No file found at ").toList ++ path) false
  | SSHFileState.unparseable diag =>
      Result.err GetSSHConfigError.ParseError
        (("unable to parse ssh file ").toList ++ path ++ '\n' :: diag) false
  | SSHFileState.parsed lines => hostsLoop path lines []

/-- The pure classification at the heart of `getUsername`: trim the
captured probe output, recognize the resolution-failure marker, the
greeting prefix (username up to the first exclamation mark), or neither. -/
def getUsernameFromOutput (raw : Str) : Option Str :=
  let output := trim raw
  if startsWith (("ssh: Could not resolve").toList) output then none
  else if startsWith (("Hi ").toList) output then
    some (splitHead '!' (output.drop 3))
  else none

/-- `getUsername`: the probe either throws (`none`, the catch path) or
yields captured text to classify. -/
def getUsername (probe : Option Str) : Option Str :=
  match probe with
  | none => none
  | some raw => getUsernameFromOutput raw

/-- Git config scopes, as in the `GitConfigLocation` enum. -/
inductive GitConfigLocation where
  | Local : GitConfigLocation
  | Global : GitConfigLocation
deriving DecidableEq

/-- Error kinds of `gitSetup` (the `GitSetupError` enum). -/
inductive GitSetupError where
  | NotInGitDirectoryError
  | NoRemoteOriginError
  | RemoteOriginIsNotSSHError
  | SSHConfigFileMissingError
  | SSHConfigFileMalformedError
  | SSHConfigHostMissingError
  | SSHPubkeyMissingError
  | SSHPubkeyMalformedError
  | SSHPubkeyNotAttachedToUserError
deriving DecidableEq

/-- The environment of external collaborators: repository detection, the
`remote.origin.url` query (raw command output, trimmed by the caller),
tilde expansion (the `expand-tilde` package), the SSH configuration file,
the rest of the filesystem (path to contents, `none` when absent), and
the remote authentication probe (`none` when the invocation throws). -/
structure Env where
  isRepo : Bool
  remoteOriginRaw : Option Str
  expand : Str → Str
  sshFile : SSHFileState
  fileContents : Str → Option Str
  probeOutput : Str → Option Str

/-- `getGitRemoteOrigin`: the trimmed command output, or `none` on
failure. -/
def getGitRemoteOrigin (env : Env) : Option Str :=
  env.remoteOriginRaw.map trim

/-- The two callers of `getSSHConfig` use its default path argument
`~/.ssh/config`, expanded by `expand-tilde`. -/
def getSSHConfigM (env : Env) : Result SSHConfigHosts GetSSHConfigError :=
  getSSHConfig (env.expand (("~/.ssh/config").toList)) env.sshFile

/-- Host-alias extraction from an SSH remote URL:
`remoteOrigin.substring("git@".length).split(":")[0]`. -/
def sshHostOf (remoteOrigin : Str) : Str :=
  splitHead ':' (remoteOrigin.drop 4)

/-- Step 7 of `gitSetup`: email from the public key file content —
`content.toString().trim().split(' ').pop()`, failing with
`SSHPubkeyMalformedError` when the result is falsy (empty). -/
def emailStep (identityFilePath content : Str) : Result Str GitSetupError :=
  let email := splitLast ' ' (trim content)
  if email.isEmpty then
    Result.err GitSetupError.SSHPubkeyMalformedError
      (("No email found in file ").toList ++ identityFilePath) false
  else Result.ok email

/-- Reason text of the `SSHConfigHostMissingError` failure: the message
lines and every configured alias, joined by newlines. -/
def hostMissingReason (sshHost : Str) (hosts : SSHConfigHosts) : Str :=
  joinNL ((("No existing ssh config entry for the origin remote host \x27").toList
      ++ sshHost ++ ("\x27").toList)
    :: ("Existing Hosts are").toList
    :: hostKeys hosts)

/-- Reason text of the `SSHPubkeyNotAttachedToUserError` failure. -/
def usernameFailReason (identityFilePath : Str) : Str :=
  ("Could not determine username. Check if pubkey at ").toList ++ identityFilePath
    ++ (" is saved in github as an AuthN key").toList

/-- Steps 1–8 of `gitSetup`: everything before the write stage, producing
the signing identity (identity file path, username, email) or the first
failure. Mirrors the source's checks in order, including the truthiness
checks on the remote origin, the `IdentityFile` attribute, and the
resolved username. -/
def resolveIdentity (env : Env) : Result (Str × Str × Str) GitSetupError :=
  if env.isRepo = false then
    Result.err GitSetupError.NotInGitDirectoryError
      (("Current directory is not a Git repository.").toList) false
  else
    match getGitRemoteOrigin env with
    | none =>
      Result.err GitSetupError.NoRemoteOriginError
        (("No remote origin configured.").toList) false
    | some remoteOrigin =>
      if remoteOrigin.isEmpty then
        Result.err GitSetupError.NoRemoteOriginError
          (("No remote origin configured.").toList) false
      else if !(startsWith (("git@").toList) remoteOrigin) then
        Result.err GitSetupError.RemoteOriginIsNotSSHError
          (("Remote origin \x27").toList ++ remoteOrigin
            ++ ("\x27 isn\x27t an ssh-based origin").toList) false
      else
        match getSSHConfigM env with
        | Result.err e reason _ =>
          Result.err GitSetupError.SSHConfigFileMalformedError
            (e.text ++ (": ").toList ++ reason) false
        | Result.ok sshConfigFile =>
          let sshHost := sshHostOf remoteOrigin
          match hget sshConfigFile sshHost with
          | none =>
            Result.err GitSetupError.SSHConfigHostMissingError
              (hostMissingReason sshHost sshConfigFile) false
          | some hostConfig =>
            match hostConfig.IdentityFile with
            | none =>
              Result.err GitSetupError.SSHPubkeyMissingError
                (("No IdentityFile entry found for Host \x27").toList ++ sshHost
                  ++ ("\x27").toList) false
            | some idf =>
              if idf.isEmpty then
                Result.err GitSetupError.SSHPubkeyMissingError
                  (("No IdentityFile entry found for Host \x27").toList ++ sshHost
                    ++ ("\x27").toList) false
              else
                let identityFilePath := env.expand idf ++ (".pub").toList
                match env.fileContents identityFilePath with
                | none =>
                  Result.err GitSetupError.SSHPubkeyMissingError
                    (("No such file exists ").toList ++ identityFilePath) false
                | some content =>
                  match emailStep identityFilePath content with
                  | Result.err e r s => Result.err e r s
                  | Result.ok email =>
                    match getUsername (env.probeOutput sshHost) with
                    | none =>
                      Result.err GitSetupError.SSHPubkeyNotAttachedToUserError
                        (usernameFailReason identityFilePath) false
                    | some username =>
                      if username.isEmpty then
                        Result.err GitSetupError.SSHPubkeyNotAttachedToUserError
                          (usernameFailReason identityFilePath) false
                      else Result.ok (identityFilePath, username, email)

/-- Outcome oracle of the git-config-write collaborator: `none` means the
write command succeeds, `some diag` means it throws with rendering
`diag`. -/
abbrev WriteOracle := Str → Str → GitConfigLocation → Option Str

/-- `setGitValue`: attempt one write; its own try/catch converts a thrown
exception into a logged `Err(false, …)`, so it never propagates. -/
def setGitValue (wo : WriteOracle) (k v : Str) (location : GitConfigLocation) :
    Result Bool Bool :=
  match wo k v location with
  | none => Result.ok true
  | some diag =>
    Result.err false
      (("unable to set git config key of \x22").toList ++ k
        ++ ("\x22 to \x22").toList ++ v ++ ("\x22 due to\n").toList ++ diag) false

/-- The six git configuration writes of step 9, in source order. -/
def gitConfigWrites (identityFilePath username email : Str) :
    List (Str × Str × GitConfigLocation) :=
  [ (("commit.gpgsign").toList, ("true").toList, GitConfigLocation.Global),
    (("tag.gpgsign").toList, ("true").toList, GitConfigLocation.Global),
    (("gpg.format").toList, ("ssh").toList, GitConfigLocation.Global),
    (("user.signingkey").toList, replaceBackslashes identityFilePath, GitConfigLocation.Local),
    (("user.name").toList, username, GitConfigLocation.Local),
    (("user.email").toList, email, GitConfigLocation.Local) ]

/-- `gitSetup`: resolve the signing identity, then attempt each of the six
writes in order (each write's own result is ignored by the caller), and
return `Ok(true)`.  The second component is the trace of attempted writes
paired with each write's individual result. -/
def gitSetup (env : Env) (wo : WriteOracle) :
    Result Bool GitSetupError × List ((Str × Str × GitConfigLocation) × Result Bool Bool) :=
  match resolveIdentity env with
  | Result.err e r s => (Result.err e r s, [])
  | Result.ok (identityFilePath, username, email) =>
    (Result.ok true,
     (gitConfigWrites identityFilePath username email).map
       (fun w => (w, setGitValue wo w.1 w.2.1 w.2.2)))

/-- Error kind of the `hosts` subcommand. -/
inductive ListGitHostsError where
  | MalformedSSHConfigFile
deriving DecidableEq

/-- The filtering loop of `listHosts`: `for (const host in …)` pushing the
aliases whose `HostName` is `github.com`. -/
def listHostsAux : SSHConfigHosts → List Str → List Str
  | [], acc => acc
  | (host, hostConfig) :: rest, acc =>
    if hostConfig.HostName = ("github.com").toList then
      listHostsAux rest (acc ++ [host])
    else listHostsAux rest acc

/-- The list of github.com aliases `listHosts` reports. -/
def listHostsCore (hosts : SSHConfigHosts) : List Str :=
  listHostsAux hosts []

/-- `listHosts`: load the SSH config (wrapping a failure), filter, log.
The second component is the reported alias list. -/
def listHosts (env : Env) : Result Bool ListGitHostsError × List Str :=
  match getSSHConfigM env with
  | Result.err e r _ =>
    (Result.err ListGitHostsError.MalformedSSHConfigFile
      (e.text ++ (": ").toList ++ r) false, [])
  | Result.ok v => (Result.ok true, listHostsCore v)

/-- Modelled from the spec: the last whitespace-delimited token of a text
— its maximal whitespace-free suffix. -/
def lastWhitespaceDelimitedToken (t : Str) : Str :=
  (t.reverse.takeWhile (fun c => !(isJSSpace c))).reverse

/-- The last space-delimited token of a text — its maximal suffix free of
the space character. -/
def lastSpaceDelimitedToken (t : Str) : Str :=
  (t.reverse.takeWhile (fun c => !(c == ' '))).reverse

/-- A sample section body: the spec's `work` host entry. -/
def sampleCfg : List InnerLine :=
  [ InnerLine.entry (("HostName").toList) (SSHValue.str (("github.com").toList)),
    InnerLine.entry (("User").toList) (SSHValue.str (("git").toList)),
    InnerLine.entry (("IdentityFile").toList) (SSHValue.str (("~/.ssh/id_work").toList)) ]

/-- A sample parsed configuration document with one host stanza. -/
def sampleDoc : List SSHLine :=
  [ SSHLine.comment,
    SSHLine.sec (("Host").toList) (SSHValue.str (("work").toList)) sampleCfg ]

/-- A sample environment in which the whole pipeline succeeds. -/
def sampleEnv : Env where
  isRepo := true
  remoteOriginRaw := some (("git@work:org/repo.git\n").toList)
  expand := fun p =>
    if p = ("~/.ssh/config").toList then ("/home/u/.ssh/config").toList
    else if p = ("~/.ssh/id_work").toList then ("/home/u/.ssh/id_work").toList
    else p
  sshFile := SSHFileState.parsed sampleDoc
  fileContents := fun p =>
    if p = ("/home/u/.ssh/id_work.pub").toList then
      some (("ssh-ed25519 AAAA alice@example.com\n").toList)
    else none
  probeOutput := fun h =>
    if h = ("work").toList then
      some (("Hi bob! You\x27ve successfully authenticated").toList)
    else none

/-- A write oracle under which every git-config write succeeds. -/
def allOkOracle : WriteOracle := fun _ _ _ => none

/-- A write oracle under which every git-config write throws. -/
def allFailOracle : WriteOracle := fun _ _ _ => some (("boom").toList)

/-- An environment identical to the successful sample but with the SSH
configuration file absent. -/
def missingCfgEnv : Env :=
  { sampleEnv with sshFile := SSHFileState.missing }

/-- An environment whose remote origin names a host absent from the
configuration. -/
def unknownHostEnv : Env :=
  { sampleEnv with remoteOriginRaw := some (("git@unknown:org/repo.git").toList) }

/-- A parsed document with three stanzas, two of which point at
github.com. -/
def threeHostDoc : List SSHLine :=
  [ SSHLine.sec (("Host").toList) (SSHValue.str (("alpha").toList))
      [ InnerLine.entry (("HostName").toList) (SSHValue.str (("github.com").toList)),
        InnerLine.entry (("User").toList) (SSHValue.str (("git").toList)) ],
    SSHLine.sec (("Host").toList) (SSHValue.str (("beta").toList))
      [ InnerLine.entry (("HostName").toList) (SSHValue.str (("gitlab.com").toList)),
        InnerLine.entry (("User").toList) (SSHValue.str (("git").toList)) ],
    SSHLine.sec (("Host").toList) (SSHValue.str (("gamma").toList))
      [ InnerLine.entry (("HostName").toList) (SSHValue.str (("github.com").toList)),
        InnerLine.entry (("User").toList) (SSHValue.str (("git").toList)) ] ]

/-- An environment whose SSH configuration holds the three-stanza
document. -/
def threeHostEnv : Env :=
  { sampleEnv with sshFile := SSHFileState.parsed threeHostDoc }

/-- A nested line that the inner loop accepts without failing: a comment
or an entry whose value is a string. -/
def innerOk : InnerLine → Bool
  | InnerLine.comment => true
  | InnerLine.entry _ (SSHValue.str _) => true
  | InnerLine.entry _ (SSHValue.nonstr _) => false

/-- The parameters of the non-comment nested lines, in order. -/
def entryParams (cfg : List InnerLine) : List Str :=
  cfg.filterMap (fun l => match l with
    | InnerLine.comment => none
    | InnerLine.entry p _ => some p)

/-- A well-formed top-level line: a comment, or a `Host` stanza with a
string alias whose nested lines all carry string values under pairwise
distinct keys, and which the section schema accepts. -/
def wfLine : SSHLine → Prop
  | SSHLine.comment => True
  | SSHLine.directive _ _ => False
  | SSHLine.sec p (SSHValue.str _) cfg =>
      p = ("Host").toList ∧ (∀ l ∈ cfg, innerOk l = true) ∧
      (entryParams cfg).Nodup ∧ (sectionSchemaParse (collectKV cfg [])).isSome = true
  | SSHLine.sec _ (SSHValue.nonstr _) _ => False

instance wfLineDecidable : DecidablePred wfLine := fun l =>
  match l with
  | SSHLine.comment => Decidable.isTrue trivial
  | SSHLine.directive _ _ => Decidable.isFalse (fun h => h)
  | SSHLine.sec p (SSHValue.str _) cfg =>
      inferInstanceAs (Decidable ((p = ("Host").toList)
        ∧ (∀ l ∈ cfg, innerOk l = true)
        ∧ (entryParams cfg).Nodup
        ∧ (sectionSchemaParse (collectKV cfg [])).isSome = true))
  | SSHLine.sec _ (SSHValue.nonstr _) _ => Decidable.isFalse (fun h => h)

/-- The host alias a top-level line declares, when it is a `Host` line
with a string value. -/
def lineAlias : SSHLine → Option Str
  | SSHLine.directive p (SSHValue.str a) =>
      if p = ("Host").toList then some a else none
  | SSHLine.sec p (SSHValue.str a) _ =>
      if p = ("Host").toList then some a else none
  | _ => none

/-- All host aliases a document declares, in order. -/
def docAliases (doc : List SSHLine) : List Str :=
  doc.filterMap lineAlias

/-- The first alias in the list already seen (scanning left to right with
the given set of already-seen aliases). -/
def firstDupFrom (seen : List Str) : List Str → Option Str
  | [] => none
  | a :: rest => if a ∈ seen then some a else firstDupFrom (a :: seen) rest

/-- The mapping entry a well-formed stanza materializes into. -/
def extractLine : SSHLine → Option (Str × SSHSection)
  | SSHLine.sec p (SSHValue.str a) cfg =>
      if p = ("Host").toList then
        (sectionSchemaParse (collectKV cfg [])).map (fun s => (a, s))
      else none
  | _ => none

/-- The mapping a well-formed document materializes into. -/
def extractDoc (doc : List SSHLine) : SSHConfigHosts :=
  doc.filterMap extractLine

/-- The value of the last non-comment string-valued entry with the given
parameter — the value that survives record accumulation. -/
def lastEntryVal : List InnerLine → Str → Option Str
  | [], _ => none
  | InnerLine.comment :: rest, k => lastEntryVal rest k
  | InnerLine.entry p (SSHValue.str v) :: rest, k =>
      (match lastEntryVal rest k with
       | some w => some w
       | none => if p = k then some v else none)
  | InnerLine.entry _ (SSHValue.nonstr _) :: rest, k => lastEntryVal rest k

/-- A parsed document that contains a duplicated host alias (`gh` twice)
but whose first top-level line is not a `Host` entry. -/
def dupExampleDoc : List SSHLine :=
  [ SSHLine.directive (("Port").toList) (SSHValue.str (("22").toList)),
    SSHLine.sec (("Host").toList) (SSHValue.str (("gh").toList))
      [ InnerLine.entry (("HostName").toList) (SSHValue.str (("github.com").toList)),
        InnerLine.entry (("User").toList) (SSHValue.str (("git").toList)) ],
    SSHLine.sec (("Host").toList) (SSHValue.str (("gh").toList))
      [ InnerLine.entry (("HostName").toList) (SSHValue.str (("github.com").toList)),
        InnerLine.entry (("User").toList) (SSHValue.str (("git").toList)) ] ]

/-- A well-formed document with the alias `gh` declared twice. -/
def dupWfDoc : List SSHLine :=
  [ SSHLine.sec (("Host").toList) (SSHValue.str (("gh").toList))
      [ InnerLine.entry (("HostName").toList) (SSHValue.str (("github.com").toList)),
        InnerLine.entry (("User").toList) (SSHValue.str (("git").toList)) ],
    SSHLine.sec (("Host").toList) (SSHValue.str (("gh").toList))
      [ InnerLine.entry (("HostName").toList) (SSHValue.str (("github.com").toList)),
        InnerLine.entry (("User").toList) (SSHValue.str (("git").toList)) ] ]

theorem splitOnChar_ne_nil (sep : Char) (s : Str) : splitOnChar sep s ≠ [] := by
  cases s with
  | nil => simp [splitOnChar]
  | cons c rest =>
    simp only [splitOnChar]
    by_cases h : c = sep
    · simp [h]
    · simp only [h, if_false]
      cases splitOnChar sep rest <;> simp

theorem getLastD_irrel {α : Type} (l : List α) (a b : α) (h : l ≠ []) :
    l.getLastD a = l.getLastD b := by
  cases l with
  | nil => exact absurd rfl h
  | cons x xs => rw [List.getLastD_cons, List.getLastD_cons]

theorem splitOnChar_cons_self (sep : Char) (rest : Str) :
    splitOnChar sep (sep :: rest) = [] :: splitOnChar sep rest := by
  simp [splitOnChar]

theorem splitOnChar_cons_ne (sep c : Char) (rest : Str) (h : ¬ c = sep) :
    ∃ x xs, splitOnChar sep rest = x :: xs ∧
      splitOnChar sep (c :: rest) = (c :: x) :: xs := by
  have hne := splitOnChar_ne_nil sep rest
  cases hx : splitOnChar sep rest with
  | nil => exact absurd hx hne
  | cons x xs => exact ⟨x, xs, rfl, by simp [splitOnChar, h, hx]⟩

/-- The first chunk of a split is the longest separator-free prefix. -/
theorem splitHead_eq_takeWhile (sep : Char) (s : Str) :
    splitHead sep s = s.takeWhile (fun c => !(c == sep)) := by
  induction s with
  | nil => rfl
  | cons c rest ih =>
    by_cases h : c = sep
    · subst h
      simp [splitHead, splitOnChar_cons_self, List.takeWhile_cons]
    · obtain ⟨x, xs, hx, hcons⟩ := splitOnChar_cons_ne sep c rest h
      have ihx : x = List.takeWhile (fun c => !(c == sep)) rest := by
        rw [splitHead, hx] at ih
        simpa using ih
      rw [splitHead, hcons, List.headD_cons, List.takeWhile_cons]
      simp [h, ← ihx]

theorem splitOnChar_length (sep : Char) (s : Str) :
    (splitOnChar sep s).length = s.count sep + 1 := by
  induction s with
  | nil => simp [splitOnChar]
  | cons c rest ih =>
    by_cases h : c = sep
    · subst h
      simp [splitOnChar_cons_self, List.count_cons, ih]
    · obtain ⟨x, xs, hx, hcons⟩ := splitOnChar_cons_ne sep c rest h
      rw [hcons, List.length_cons]
      rw [hx, List.length_cons] at ih
      simp [List.count_cons, h, ih]

theorem splitOnChar_of_not_mem (sep : Char) (s : Str) (h : sep ∉ s) :
    splitOnChar sep s = [s] := by
  induction s with
  | nil => rfl
  | cons c rest ih =>
    have hc : c ≠ sep := fun hh => h (hh ▸ List.mem_cons_self c rest)
    have hr : sep ∉ rest := fun hh => h (List.mem_cons_of_mem c hh)
    simp [splitOnChar, hc, ih hr]

theorem takeWhile_append_of_all {α : Type} (p : α → Bool) (xs ys : List α)
    (h : xs.all p) : (xs ++ ys).takeWhile p = xs ++ ys.takeWhile p := by
  induction xs with
  | nil => simp
  | cons x l ih =>
    simp only [List.all_cons, Bool.and_eq_true] at h
    simp [List.takeWhile_cons, h.1, ih h.2]

theorem takeWhile_append_of_not_all {α : Type} (p : α → Bool) (xs ys : List α)
    (h : ¬ xs.all p) : (xs ++ ys).takeWhile p = xs.takeWhile p := by
  induction xs with
  | nil => simp at h
  | cons x l ih =>
    simp only [List.all_cons, Bool.and_eq_true] at h
    by_cases hx : p x
    · have hl : ¬ l.all p := fun hh => h ⟨hx, hh⟩
      simp [List.takeWhile_cons, hx, ih hl]
    · simp [List.takeWhile_cons, hx]

theorem takeWhile_of_all {α : Type} (p : α → Bool) (xs : List α)
    (h : xs.all p) : xs.takeWhile p = xs := by
  have := takeWhile_append_of_all p xs [] h
  simpa using this

/-- The last chunk of a split is the longest separator-free suffix. -/
theorem splitLast_eq_suffix (sep : Char) (s : Str) :
    splitLast sep s = (s.reverse.takeWhile (fun c => !(c == sep))).reverse := by
  induction s with
  | nil => rfl
  | cons c rest ih =>
    have hne := splitOnChar_ne_nil sep rest
    by_cases h : c = sep
    · subst h
      rw [splitLast, splitOnChar_cons_self]
      have hl : ([] :: splitOnChar c rest).getLastD ([] : Str)
          = (splitOnChar c rest).getLastD [] := by
        rw [List.getLastD_cons]
      rw [hl, List.reverse_cons]
      by_cases hall : rest.reverse.all (fun d => !(d == c))
      · rw [takeWhile_append_of_all _ _ _ hall]
        have h1 : List.takeWhile (fun d => !(d == c)) [c] = [] := by simp
        rw [h1, List.append_nil]
        rw [splitLast, takeWhile_of_all _ _ hall] at ih
        exact ih
      · rw [takeWhile_append_of_not_all _ _ _ hall]
        exact ih
    · obtain ⟨x, xs, hx, hcons⟩ := splitOnChar_cons_ne sep c rest h
      rw [splitLast, hcons, List.reverse_cons]
      by_cases hall : rest.reverse.all (fun d => !(d == sep))
      · have hnm : sep ∉ rest := by
          intro hm
          have hm2 : sep ∈ rest.reverse := List.mem_reverse.mpr hm
          have := (List.all_eq_true.mp hall) sep hm2
          simp at this
        have hsingle : splitOnChar sep rest = [rest] :=
          splitOnChar_of_not_mem sep rest hnm
        rw [hsingle] at hx
        have hxr : x = rest := by injection hx with h1 h2; exact h1.symm
        have hxs : xs = [] := by injection hx with h1 h2; exact h2.symm
        subst hxr; subst hxs
        rw [takeWhile_append_of_all _ _ _ hall]
        have hc : List.takeWhile (fun d => !(d == sep)) [c] = [c] := by simp [h]
        rw [hc]
        simp
      · have hmem : sep ∈ rest := by
          by_contra hnm
          have : rest.reverse.all (fun d => !(d == sep)) := by
            rw [List.all_eq_true]
            intro d hd
            have hdm : d ∈ rest := List.mem_reverse.mp hd
            simp only [Bool.not_eq_eq_eq_not, Bool.not_true, beq_eq_false_iff_ne]
            intro hds; exact hnm (hds ▸ hdm)
          exact hall this
        have hcount : 0 < rest.count sep := List.count_pos_iff.mpr hmem
        have hlen : (splitOnChar sep rest).length = rest.count sep + 1 :=
          splitOnChar_length sep rest
        have hxs : xs ≠ [] := by
          intro hxe
          rw [hx, hxe] at hlen
          simp at hlen
          omega
        have hstep : ((c :: x) :: xs).getLastD ([] : Str) = (x :: xs).getLastD [] := by
          rw [List.getLastD_cons, List.getLastD_cons]
          exact getLastD_irrel xs (c :: x) x hxs
        rw [hstep]
        rw [takeWhile_append_of_not_all _ _ _ hall]
        rw [← hx]
        exact ih

theorem head_dropWhile {α : Type} (p : α → Bool) :
    ∀ (l : List α) (c : α) (l2 : List α), l.dropWhile p = c :: l2 → p c = false := by
  intro l
  induction l with
  | nil => intro c l2 h; simp [List.dropWhile] at h
  | cons x xs ih =>
    intro c l2 h
    rw [List.dropWhile_cons] at h
    by_cases hx : p x
    · simp only [hx, if_true] at h
      exact ih c l2 h
    · simp only [hx, if_false] at h
      have : x = c := by injection h with h1 h2
      rw [← this]
      exact Bool.of_not_eq_true hx

/-- The trimmed text never ends with a whitespace character: its reverse is
either empty or starts with a non-whitespace character. -/
theorem trim_reverse_head (s : Str) (c : Char) (l : Str)
    (h : (trim s).reverse = c :: l) : isJSSpace c = false := by
  rw [trim, List.reverse_reverse] at h
  exact head_dropWhile isJSSpace _ c l h

/-- Every element of the joined list occurs inside the joined text. -/
theorem mem_joinNL_isInfix (l : List Str) (a : Str) (h : a ∈ l) :
    List.IsInfix a (joinNL l) := by
  induction l with
  | nil => simp at h
  | cons x rest ih =>
    rcases List.mem_cons.mp h with hx | hmem
    · subst hx
      cases rest with
      | nil => exact List.infix_rfl
      | cons y ys =>
        refine ⟨[], '\n' :: joinNL (y :: ys), ?_⟩
        simp [joinNL]
    · cases rest with
      | nil => simp at hmem
      | cons y ys =>
        have hsuf : List.IsSuffix (joinNL (y :: ys)) (joinNL (x :: y :: ys)) := by
          refine ⟨x ++ ['\n'], ?_⟩
          simp [joinNL]
        exact (ih hmem).trans hsuf.isInfix

theorem hi_prefix_not_ssh (t : Str) (h : startsWith (("Hi ").toList) t = true) :
    startsWith (("ssh: Could not resolve").toList) t = false := by
  cases t with
  | nil => exact absurd h (by decide)
  | cons c rest =>
    have hpre : (("Hi ").toList) <+: c :: rest := List.isPrefixOf_iff_prefix.mp h
    have e1 : (("Hi ").toList) = 'H' :: 'i' :: ' ' :: [] := rfl
    rw [e1] at hpre
    obtain ⟨hc, -⟩ := List.cons_prefix_cons.mp hpre
    subst hc
    rfl

/-- Claim C3: the probe-output classifier distinguishes exactly three
shapes of the trimmed captured text: the resolution-failure marker yields
an absent username; the greeting prefix yields the substring between the
prefix and the first exclamation mark; everything else yields an absent
username; and a throwing probe (nonzero-exit path) also yields an absent
username rather than an exception. -/
theorem claim_C3 (raw : Str) :
    (startsWith (("ssh: Could not resolve").toList) (trim raw) = true →
      getUsernameFromOutput raw = none) ∧
    (startsWith (("Hi ").toList) (trim raw) = true →
      getUsernameFromOutput raw =
        some (((trim raw).drop 3).takeWhile (fun c => !(c == '!')))) ∧
    (startsWith (("ssh: Could not resolve").toList) (trim raw) = false →
      startsWith (("Hi ").toList) (trim raw) = false →
      getUsernameFromOutput raw = none) ∧
    getUsername none = none := by
  refine ⟨?_, ?_, ?_, rfl⟩
  · intro h
    simp only [getUsernameFromOutput]
    rw [h]
    simp
  · intro h
    have hm := hi_prefix_not_ssh (trim raw) h
    simp only [getUsernameFromOutput]
    rw [hm, h]
    simp [splitHead_eq_takeWhile]
  · intro h1 h2
    simp only [getUsernameFromOutput]
    rw [h1, h2]
    simp

/-- Witness for C3 at the spec's example probe response. -/
theorem claim_C3_witness :
    getUsernameFromOutput
      (("Hi bob! You\x27ve successfully authenticated, but GitHub does not provide shell access.").toList)
      = some (("bob").toList) := by
  have h := (claim_C3
    (("Hi bob! You\x27ve successfully authenticated, but GitHub does not provide shell access.").toList)).2.1
    (by decide)
  rw [h]
  decide

/-- Claim C10: a probe output beginning with the greeting prefix but
containing no exclamation mark yields the whole remainder after the
prefix as the username, not an absent one. -/
theorem claim_C10 (raw : Str)
    (h1 : startsWith (("Hi ").toList) (trim raw) = true)
    (h2 : '!' ∉ trim raw) :
    getUsernameFromOutput raw = some ((trim raw).drop 3) := by
  have hm := hi_prefix_not_ssh (trim raw) h1
  have hd : '!' ∉ (trim raw).drop 3 := fun hmem => h2 (List.mem_of_mem_drop hmem)
  simp only [getUsernameFromOutput]
  rw [hm, h1]
  simp [splitHead, splitOnChar_of_not_mem _ _ hd]

/-- Witness for C10. -/
theorem claim_C10_witness :
    getUsernameFromOutput (("Hi bob").toList) = some (("bob").toList) := by
  have h := claim_C10 (("Hi bob").toList) (by decide) (by decide)
  rw [h]
  decide

/-- Claim C1 as stated is false: the source splits the trimmed public-key
content on the space character only, so with a tab inside the content the
resolved email is not the last whitespace-delimited token.  Concretely,
for content `"ssh-ed25519 AAAA alice@example.com\told"` the code resolves
the email `"alice@example.com\told"` while the last whitespace-delimited
token is `"old"`. -/
theorem claim_C1_counterexample :
    emailStep (("/home/u/.ssh/id_work.pub").toList)
        (("ssh-ed25519 AAAA alice@example.com\told").toList)
      = Result.ok (("alice@example.com\told").toList) ∧
    lastWhitespaceDelimitedToken
        (trim (("ssh-ed25519 AAAA alice@example.com\told").toList))
      = ("old").toList ∧
    (("alice@example.com\told").toList : Str) ≠ ("old").toList :=
  ⟨by decide, by decide, by decide⟩

/-- Claim C1 amended: for every existing public-key file reached at the
email-extraction stage, the resolved email equals the last
space-delimited token (split on the space character U+0020) of the file's
trimmed text content; if the trimmed content is empty, resolution fails
with `SSHPubkeyMalformed`; the spec's two-space example yields
`alice@example.com`. -/
theorem claim_C1_amended (p c : Str) :
    (trim c = [] → emailStep p c =
      Result.err GitSetupError.SSHPubkeyMalformedError
        (("No email found in file ").toList ++ p) false) ∧
    (trim c ≠ [] → emailStep p c = Result.ok (lastSpaceDelimitedToken (trim c))) ∧
    emailStep p (("ssh-ed25519 AAAAC3...  alice@example.com\n").toList)
      = Result.ok (("alice@example.com").toList) := by
  refine ⟨?_, ?_, by rfl⟩
  · intro h
    simp [emailStep, h, splitLast, splitOnChar]
  · intro h
    have hrev : ∃ ch l, (trim c).reverse = ch :: l := by
      cases hx : (trim c).reverse with
      | nil =>
        exfalso
        apply h
        have := congrArg List.reverse hx
        simpa using this
      | cons ch l => exact ⟨ch, l, rfl⟩
    obtain ⟨ch, l, hx⟩ := hrev
    have hsp : isJSSpace ch = false := trim_reverse_head c ch l hx
    have hch : (ch == ' ') = false := by
      cases hcc : (ch == ' ') with
      | false => rfl
      | true =>
        rw [isJSSpace, hcc] at hsp
        simp at hsp
    have hne : (splitLast ' ' (trim c)).isEmpty = false := by
      rw [splitLast_eq_suffix, hx, List.takeWhile_cons, hch]
      simp
    have hval : splitLast ' ' (trim c) = lastSpaceDelimitedToken (trim c) := by
      rw [splitLast_eq_suffix, lastSpaceDelimitedToken]
    simp only [emailStep]
    rw [hne, hval]
    simp

/-- Witness for the amended C1. -/
theorem claim_C1_witness :
    emailStep (("/k.pub").toList) (("ssh-ed25519 AAAA alice@example.com").toList)
      = Result.ok
          (lastSpaceDelimitedToken (trim (("ssh-ed25519 AAAA alice@example.com").toList))) :=
  (claim_C1_amended (("/k.pub").toList)
    (("ssh-ed25519 AAAA alice@example.com").toList)).2.1 (by decide)

/-- Claim C6: a non-empty remote origin URL not starting with `git@`
fails identity resolution with `RemoteOriginIsNotSSHError`; for a URL
starting with `git@`, the host-mapping lookup key is exactly the
substring after `git@` up to the first colon; and the spec's example URL
yields host key `work`. -/
theorem claim_C6 :
    (∀ (env : Env) (ro : Str), env.isRepo = true → getGitRemoteOrigin env = some ro →
      ro ≠ [] → startsWith (("git@").toList) ro = false →
      resolveIdentity env = Result.err GitSetupError.RemoteOriginIsNotSSHError
        (("Remote origin \x27").toList ++ ro
          ++ ("\x27 isn\x27t an ssh-based origin").toList) false) ∧
    (∀ ro : Str, startsWith (("git@").toList) ro = true →
      sshHostOf ro = (ro.drop 4).takeWhile (fun c => !(c == ':'))) ∧
    sshHostOf (("git@work:org/repo.git").toList) = ("work").toList := by
  refine ⟨?_, ?_, by decide⟩
  · intro env ro hrepo horigin hne hssh
    have hempty : ro.isEmpty = false := by
      cases ro with
      | nil => exact absurd rfl hne
      | cons a l => rfl
    simp only [resolveIdentity]
    rw [hrepo, horigin]
    simp only [hempty, hssh]
    simp
  · intro ro _
    rw [sshHostOf, splitHead_eq_takeWhile]

/-- Witness for C6 at the spec's examples. -/
theorem claim_C6_witness :
    resolveIdentity
      { isRepo := true
        remoteOriginRaw := some (("https://github.com/org/repo.git").toList)
        expand := fun p => p
        sshFile := SSHFileState.parsed []
        fileContents := fun _ => none
        probeOutput := fun _ => none }
      = Result.err GitSetupError.RemoteOriginIsNotSSHError
          (("Remote origin \x27").toList ++ ("https://github.com/org/repo.git").toList
            ++ ("\x27 isn\x27t an ssh-based origin").toList) false :=
  (claim_C6).1
    { isRepo := true
      remoteOriginRaw := some (("https://github.com/org/repo.git").toList)
      expand := fun p => p
      sshFile := SSHFileState.parsed []
      fileContents := fun _ => none
      probeOutput := fun _ => none }
    (("https://github.com/org/repo.git").toList)
    rfl (by rfl) (by decide) (by decide)

/-- Claim C2: when the orchestration reaches the write stage (equivalently
when its overall result is success) the trace of attempted writes is
exactly the six fixed git configuration values, in source order, derived
from the resolved identity; the overall result is success; and neither
the attempted writes nor the overall result depend on which individual
writes fail, since each write is attempted independently. -/
theorem claim_C2 (env : Env) (wo wo2 : WriteOracle) :
    ((gitSetup env wo).2 ≠ [] → (gitSetup env wo).1 = Result.ok true) ∧
    ((gitSetup env wo).1 = Result.ok true →
      ∃ identityFilePath username email,
        resolveIdentity env = Result.ok (identityFilePath, username, email) ∧
        (gitSetup env wo).2.map Prod.fst = gitConfigWrites identityFilePath username email ∧
        (gitSetup env wo).2.length = 6) ∧
    (gitSetup env wo).1 = (gitSetup env wo2).1 ∧
    (gitSetup env wo).2.map Prod.fst = (gitSetup env wo2).2.map Prod.fst := by
  cases hres : resolveIdentity env with
  | err e r s =>
    refine ⟨?_, ?_, ?_, ?_⟩ <;> simp [gitSetup, hres]
  | ok v =>
    obtain ⟨idp, rest⟩ := v
    obtain ⟨un, em⟩ := rest
    refine ⟨?_, ?_, ?_, ?_⟩
    · intro _
      simp [gitSetup, hres]
    · intro _
      refine ⟨idp, un, em, rfl, ?_, ?_⟩
      · simp only [gitSetup, hres]
        rw [List.map_map]
        exact List.map_id _
      · simp [gitSetup, hres, gitConfigWrites]
    · simp [gitSetup, hres]
    · simp [gitSetup, hres]

/-- Witness for C2: a fully successful run attempts exactly the six
writes even when every write fails. -/
theorem claim_C2_witness :
    ∃ identityFilePath username email,
      resolveIdentity sampleEnv = Result.ok (identityFilePath, username, email) ∧
      (gitSetup sampleEnv allFailOracle).2.map Prod.fst
        = gitConfigWrites identityFilePath username email ∧
      (gitSetup sampleEnv allFailOracle).2.length = 6 :=
  (claim_C2 sampleEnv allFailOracle allOkOracle).2.1 (by rfl)

theorem emailStep_err_kind (p c : Str) (e : GitSetupError) (r : Str) (s : Bool)
    (h : emailStep p c = Result.err e r s) :
    e = GitSetupError.SSHPubkeyMalformedError := by
  rw [emailStep] at h
  by_cases hx : (splitLast ' ' (trim c)).isEmpty
  · rw [if_pos hx] at h
    injection h with h1 h2 h3
    exact h1.symm
  · rw [if_neg hx] at h
    cases h

theorem emailStep_ne_missing (p c : Str) (r : Str) (s : Bool) :
    emailStep p c ≠ Result.err GitSetupError.SSHConfigFileMissingError r s := by
  intro h
  exact absurd (emailStep_err_kind p c _ r s h) (by decide)

/-- No path of the identity-resolution stage produces the error kind
`SSHConfigFileMissingError`; a missing configuration file is wrapped into
`SSHConfigFileMalformedError` instead. -/
theorem resolveIdentity_never_missing (env : Env) (r : Str) (s : Bool) :
    resolveIdentity env ≠ Result.err GitSetupError.SSHConfigFileMissingError r s := by
  intro h
  rw [resolveIdentity] at h
  simp only [] at h
  repeat
    first
    | exact emailStep_ne_missing _ _ _ _ (by assumption)
    | cases h
    | split at h

/-- Claim C9: when the SSH configuration file is missing, the setup
orchestrator returns `SSHConfigFileMalformedError` whose reason wraps the
parser's file-missing error kind; and no orchestrator path ever returns
the distinct `GitSetupError.SSHConfigFileMissingError` kind. -/
theorem claim_C9 :
    (∀ (env : Env) (wo : WriteOracle) (ro : Str),
      env.isRepo = true → getGitRemoteOrigin env = some ro → ro ≠ [] →
      startsWith (("git@").toList) ro = true → env.sshFile = SSHFileState.missing →
      (gitSetup env wo).1 = Result.err GitSetupError.SSHConfigFileMalformedError
        (("SSHConfigFileMissingError: No file found at ").toList
          ++ env.expand (("~/.ssh/config").toList)) false) ∧
    (∀ (env : Env) (wo : WriteOracle) (r : Str) (s : Bool),
      (gitSetup env wo).1 ≠ Result.err GitSetupError.SSHConfigFileMissingError r s) := by
  constructor
  · intro env wo ro hrepo horigin hne hssh hmiss
    have hempty : ro.isEmpty = false := by
      cases ro with
      | nil => exact absurd rfl hne
      | cons a l => rfl
    have hcfg : getSSHConfigM env = Result.err GetSSHConfigError.SSHConfigFileMissingError
        (("No file found at ").toList ++ env.expand (("~/.ssh/config").toList)) false := by
      rw [getSSHConfigM, hmiss]
      rfl
    have hres : resolveIdentity env = Result.err GitSetupError.SSHConfigFileMalformedError
        (("SSHConfigFileMissingError: No file found at ").toList
          ++ env.expand (("~/.ssh/config").toList)) false := by
      simp only [resolveIdentity]
      rw [hrepo, horigin]
      simp only [hempty, hssh]
      rw [hcfg]
      rfl
    simp [gitSetup, hres]
  · intro env wo r s h
    cases hres : resolveIdentity env with
    | err e r2 s2 =>
      simp only [gitSetup, hres] at h
      obtain ⟨he, hr, hs⟩ := Result.err.inj h
      rw [he, hr, hs] at hres
      exact resolveIdentity_never_missing env _ _ hres
    | ok v =>
      simp [gitSetup, hres] at h

/-- Witness for C9 at a concrete environment with a missing SSH config. -/
theorem claim_C9_witness :
    (gitSetup missingCfgEnv allOkOracle).1
      = Result.err GitSetupError.SSHConfigFileMalformedError
          (("SSHConfigFileMissingError: No file found at ").toList
            ++ missingCfgEnv.expand (("~/.ssh/config").toList)) false :=
  (claim_C9).1 missingCfgEnv allOkOracle (("git@work:org/repo.git").toList)
    rfl (by rfl) (by decide) (by decide) rfl

/-- Claim C5: an SSH-style remote URL whose extracted host key is absent
from the host mapping fails identity resolution with
`SSHConfigHostMissingError`, and the failure reason carries the full list
of configured host aliases (each alias occurs in the reason text, which
is exactly the message lines joined with every alias). -/
theorem claim_C5 (env : Env) (ro : Str) (hosts : SSHConfigHosts)
    (hrepo : env.isRepo = true) (horigin : getGitRemoteOrigin env = some ro)
    (hne : ro ≠ []) (hssh : startsWith (("git@").toList) ro = true)
    (hcfg : getSSHConfigM env = Result.ok hosts)
    (hmiss : hget hosts (sshHostOf ro) = none) :
    resolveIdentity env = Result.err GitSetupError.SSHConfigHostMissingError
      (hostMissingReason (sshHostOf ro) hosts) false ∧
    ∀ a ∈ hostKeys hosts, List.IsInfix a (hostMissingReason (sshHostOf ro) hosts) := by
  constructor
  · have hempty : ro.isEmpty = false := by
      cases ro with
      | nil => exact absurd rfl hne
      | cons x l => rfl
    simp only [resolveIdentity]
    rw [hrepo, horigin]
    simp only [hempty, hssh]
    rw [hcfg]
    simp only []
    rw [hmiss]
    simp
  · intro a ha
    apply mem_joinNL_isInfix
    exact List.mem_cons_of_mem _ (List.mem_cons_of_mem _ ha)

/-- Witness for C5 at the spec's `git@unknown:org/repo.git` example. -/
theorem claim_C5_witness :
    resolveIdentity unknownHostEnv = Result.err GitSetupError.SSHConfigHostMissingError
      (hostMissingReason (sshHostOf (("git@unknown:org/repo.git").toList))
        [ ((("work").toList),
           ⟨(("github.com").toList), (("git").toList),
            some (("~/.ssh/id_work").toList), none, none⟩) ]) false ∧
    ∀ a ∈ hostKeys
        [ ((("work").toList),
           ⟨(("github.com").toList), (("git").toList),
            some (("~/.ssh/id_work").toList), none, none⟩) ],
      List.IsInfix a
        (hostMissingReason (sshHostOf (("git@unknown:org/repo.git").toList))
          [ ((("work").toList),
             ⟨(("github.com").toList), (("git").toList),
              some (("~/.ssh/id_work").toList), none, none⟩) ]) :=
  claim_C5 unknownHostEnv (("git@unknown:org/repo.git").toList)
    [ ((("work").toList),
       ⟨(("github.com").toList), (("git").toList),
        some (("~/.ssh/id_work").toList), none, none⟩) ]
    rfl (by rfl) (by decide) (by decide) (by rfl) (by rfl)

theorem listHostsAux_eq (hosts : SSHConfigHosts) :
    ∀ acc, listHostsAux hosts acc
      = acc ++ hosts.filterMap
          (fun p => if p.2.HostName = ("github.com").toList then some p.1 else none) := by
  induction hosts with
  | nil => intro acc; simp [listHostsAux]
  | cons hd tl ih =>
    intro acc
    obtain ⟨host, hostConfig⟩ := hd
    simp only [listHostsAux, List.filterMap_cons]
    by_cases h : hostConfig.HostName = ("github.com").toList
    · rw [if_pos h, if_pos h, ih]
      simp
    · rw [if_neg h, if_neg h, ih]

/-- Claim C8: host listing reports exactly the aliases whose `HostName`
equals `github.com`, in the mapping's enumeration order (the mapping's
own order, as a filter of it), and reports overall success. -/
theorem claim_C8 (env : Env) (v : SSHConfigHosts)
    (h : getSSHConfigM env = Result.ok v) :
    (listHosts env).2 = v.filterMap
      (fun p => if p.2.HostName = ("github.com").toList then some p.1 else none) ∧
    (listHosts env).1 = Result.ok true := by
  constructor
  · simp only [listHosts]
    rw [h]
    simp [listHostsCore, listHostsAux_eq]
  · simp only [listHosts]
    rw [h]

/-- Witness for C8: over three entries of which two have hostname
github.com, exactly those two aliases are reported, in original order. -/
theorem claim_C8_witness :
    (listHosts threeHostEnv).2 = [(("alpha").toList), (("gamma").toList)] := by
  have h := (claim_C8 threeHostEnv
    [ ((("alpha").toList),
       ⟨(("github.com").toList), (("git").toList), none, none, none⟩),
      ((("beta").toList),
       ⟨(("gitlab.com").toList), (("git").toList), none, none, none⟩),
      ((("gamma").toList),
       ⟨(("github.com").toList), (("git").toList), none, none, none⟩) ]
    (by rfl)).1
  rw [h]
  decide

theorem rget_rset (kv : List (Str × Str)) (k v k2 : Str) :
    rget (rset kv k v) k2 = if k = k2 then some v else rget kv k2 := by
  induction kv with
  | nil =>
    by_cases h : k = k2 <;> simp [rset, rget, h]
  | cons hd tl ih =>
    obtain ⟨k3, v3⟩ := hd
    by_cases h3 : k3 = k
    · subst h3
      by_cases h : k3 = k2 <;> simp [rset, rget, h]
    · by_cases h32 : k3 = k2
      · have hk : ¬ k = k2 := fun he => h3 (h32.trans he.symm)
        have h3b : ¬ k2 = k := fun he => h3 (h32.trans he)
        simp [rset, rget, h3, h32, hk, h3b, ih]
      · simp [rset, rget, h3, h32, ih]

theorem collectKV_rget (cfg : List InnerLine) :
    ∀ (kv : List (Str × Str)) (k : Str),
      rget (collectKV cfg kv) k =
        (match lastEntryVal cfg k with
         | some w => some w
         | none => rget kv k) := by
  induction cfg with
  | nil => intro kv k; simp [collectKV, lastEntryVal]
  | cons hd tl ih =>
    intro kv k
    cases hd with
    | comment => simpa [collectKV, lastEntryVal] using ih kv k
    | entry p v =>
      cases v with
      | str s =>
        have h1 : collectKV (InnerLine.entry p (SSHValue.str s) :: tl) kv
            = collectKV tl (rset kv p s) := rfl
        rw [h1, ih (rset kv p s) k]
        have h2 : lastEntryVal (InnerLine.entry p (SSHValue.str s) :: tl) k
            = (match lastEntryVal tl k with
               | some w => some w
               | none => if p = k then some s else none) := rfl
        rw [h2]
        cases hlv : lastEntryVal tl k with
        | some w => simp
        | none =>
          simp only []
          rw [rget_rset]
          by_cases hpk : p = k <;> simp [hpk]
      | nonstr r => simpa [collectKV, lastEntryVal] using ih kv k

theorem entryParams_cons_entry (p : Str) (v : SSHValue) (tl : List InnerLine) :
    entryParams (InnerLine.entry p v :: tl) = p :: entryParams tl := by
  simp [entryParams, List.filterMap_cons]

theorem entryParams_cons_comment (tl : List InnerLine) :
    entryParams (InnerLine.comment :: tl) = entryParams tl := by
  simp [entryParams, List.filterMap_cons]

theorem lastEntryVal_of_not_mem (cfg : List InnerLine) (k : Str)
    (h : k ∉ entryParams cfg) : lastEntryVal cfg k = none := by
  induction cfg with
  | nil => rfl
  | cons hd tl ih =>
    cases hd with
    | comment =>
      rw [entryParams_cons_comment] at h
      simpa [lastEntryVal] using ih h
    | entry p v =>
      rw [entryParams_cons_entry] at h
      have hpk : ¬ p = k := fun he => h (he ▸ List.mem_cons_self p (entryParams tl))
      have htl : k ∉ entryParams tl := fun hm => h (List.mem_cons_of_mem _ hm)
      cases v with
      | str s => simp [lastEntryVal, ih htl, hpk]
      | nonstr r => simpa [lastEntryVal] using ih htl

theorem lastEntryVal_of_nodup (cfg : List InnerLine) (k v : Str)
    (hnd : (entryParams cfg).Nodup)
    (hmem : InnerLine.entry k (SSHValue.str v) ∈ cfg) :
    lastEntryVal cfg k = some v := by
  induction cfg with
  | nil => simp at hmem
  | cons hd tl ih =>
    rcases List.mem_cons.mp hmem with heq | hmem2
    · subst heq
      rw [entryParams_cons_entry] at hnd
      have hk : k ∉ entryParams tl := (List.nodup_cons.mp hnd).1
      simp [lastEntryVal, lastEntryVal_of_not_mem tl k hk]
    · cases hd with
      | comment =>
        rw [entryParams_cons_comment] at hnd
        simpa [lastEntryVal] using ih hnd hmem2
      | entry p v2 =>
        rw [entryParams_cons_entry] at hnd
        have htl := (List.nodup_cons.mp hnd).2
        cases v2 with
        | str s => simp [lastEntryVal, ih htl hmem2]
        | nonstr r => simpa [lastEntryVal] using ih htl hmem2

theorem readSection_ok (path host : Str) :
    ∀ (cfg : List InnerLine), (∀ l ∈ cfg, innerOk l = true) →
      ∀ kv, readSection path host cfg kv = Result.ok (collectKV cfg kv) := by
  intro cfg
  induction cfg with
  | nil => intro _ kv; rfl
  | cons hd tl ih =>
    intro h kv
    cases hd with
    | comment => exact ih (fun l hl => h l (List.mem_cons_of_mem _ hl)) kv
    | entry p v =>
      cases v with
      | str s => exact ih (fun l hl => h l (List.mem_cons_of_mem _ hl)) (rset kv p s)
      | nonstr r =>
        have := h (InnerLine.entry p (SSHValue.nonstr r)) (List.mem_cons_self _ _)
        simp [innerOk] at this

theorem hostKeys_cons (k : Str) (v : SSHSection) (tl : SSHConfigHosts) :
    hostKeys ((k, v) :: tl) = k :: hostKeys tl := rfl

theorem hget_isSome_iff (hosts : SSHConfigHosts) (a : Str) :
    (hget hosts a).isSome = true ↔ a ∈ hostKeys hosts := by
  induction hosts with
  | nil =>
    constructor
    · intro h
      cases h
    · intro h
      cases h
  | cons hd tl ih =>
    obtain ⟨k, v⟩ := hd
    rw [hostKeys_cons]
    by_cases h : k = a
    · subst h
      constructor
      · intro _
        exact List.mem_cons_self _ _
      · intro _
        simp [hget]
    · have h2 : ¬ a = k := fun he => h he.symm
      constructor
      · intro hh
        have hs : (hget tl a).isSome = true := by simpa [hget, h] using hh
        exact List.mem_cons_of_mem _ (ih.mp hs)
      · intro hh
        have hs : a ∈ hostKeys tl := by
          rcases List.mem_cons.mp hh with he | hs
          · exact absurd he h2
          · exact hs
        simpa [hget, h] using ih.mpr hs

theorem hostKeys_append (xs ys : SSHConfigHosts) :
    hostKeys (xs ++ ys) = hostKeys xs ++ hostKeys ys := by
  simp [hostKeys]

theorem firstDupFrom_congr (l : List Str) :
    ∀ (s1 s2 : List Str), (∀ x, x ∈ s1 ↔ x ∈ s2) →
      firstDupFrom s1 l = firstDupFrom s2 l := by
  induction l with
  | nil => intro s1 s2 _; rfl
  | cons a rest ih =>
    intro s1 s2 h
    simp only [firstDupFrom]
    by_cases ha : a ∈ s1
    · rw [if_pos ha, if_pos ((h a).mp ha)]
    · rw [if_neg ha, if_neg (fun hh => ha ((h a).mpr hh))]
      apply ih
      intro x
      simp only [List.mem_cons]
      constructor
      · rintro (he | hs)
        · exact Or.inl he
        · exact Or.inr ((h x).mp hs)
      · rintro (he | hs)
        · exact Or.inl he
        · exact Or.inr ((h x).mpr hs)

theorem firstDupFrom_none (l : List Str) :
    ∀ seen, l.Nodup → (∀ x ∈ l, x ∉ seen) → firstDupFrom seen l = none := by
  induction l with
  | nil => intro _ _ _; rfl
  | cons a rest ih =>
    intro seen hnd hdisj
    simp only [firstDupFrom]
    rw [if_neg (hdisj a (List.mem_cons_self a rest))]
    apply ih (a :: seen) (List.nodup_cons.mp hnd).2
    intro x hx hmem
    rcases List.mem_cons.mp hmem with he | hs
    · subst he
      exact (List.nodup_cons.mp hnd).1 hx
    · exact hdisj x (List.mem_cons_of_mem _ hx) hs

theorem docAliases_cons_comment (rest : List SSHLine) :
    docAliases (SSHLine.comment :: rest) = docAliases rest := by
  simp [docAliases, List.filterMap_cons, lineAlias]

theorem extractDoc_cons_comment (rest : List SSHLine) :
    extractDoc (SSHLine.comment :: rest) = extractDoc rest := by
  simp [extractDoc, List.filterMap_cons, extractLine]

theorem docAliases_cons_stanza (a : Str) (cfg : List InnerLine) (rest : List SSHLine) :
    docAliases (SSHLine.sec (("Host").toList) (SSHValue.str a) cfg :: rest)
      = a :: docAliases rest := by
  simp [docAliases, List.filterMap_cons, lineAlias]

theorem extractDoc_cons_stanza (a : Str) (cfg : List InnerLine) (rest : List SSHLine)
    (data : SSHSection) (hdata : sectionSchemaParse (collectKV cfg []) = some data) :
    extractDoc (SSHLine.sec (("Host").toList) (SSHValue.str a) cfg :: rest)
      = (a, data) :: extractDoc rest := by
  simp [extractDoc, List.filterMap_cons, extractLine, hdata]

theorem hostsLoop_sec_host (path a : Str) (cfg : List InnerLine)
    (rest : List SSHLine) (hosts : SSHConfigHosts) :
    hostsLoop path (SSHLine.sec (("Host").toList) (SSHValue.str a) cfg :: rest) hosts =
      (if (hget hosts a).isSome then
        Result.err GetSSHConfigError.DuplicateHostError (dupReason path a) false
      else
        match readSection path a cfg [] with
        | Result.err e r s => Result.err e r s
        | Result.ok keyValues =>
          match sectionSchemaParse keyValues with
          | none => Result.err GetSSHConfigError.MalformedError (schemaFailReason a) false
          | some data => hostsLoop path rest (hosts ++ [(a, data)])) := by
  simp [hostsLoop]

/-- Over a document whose lines are all well-formed, the parsing loop
fails with the duplicate-host error at the first alias repeat, and
otherwise materializes every stanza, in order, after the accumulated
hosts. -/
theorem hostsLoop_wf (path : Str) :
    ∀ (doc : List SSHLine) (hosts : SSHConfigHosts),
      (∀ l ∈ doc, wfLine l) →
      hostsLoop path doc hosts =
        (match firstDupFrom (hostKeys hosts) (docAliases doc) with
         | some h => Result.err GetSSHConfigError.DuplicateHostError (dupReason path h) false
         | none => Result.ok (hosts ++ extractDoc doc)) := by
  intro doc
  induction doc with
  | nil =>
    intro hosts _
    simp [hostsLoop, docAliases, firstDupFrom, extractDoc]
  | cons line rest ih =>
    intro hosts hwf
    have hwfl := hwf line (List.mem_cons_self _ _)
    have hwfr : ∀ l ∈ rest, wfLine l := fun l hl => hwf l (List.mem_cons_of_mem _ hl)
    cases line with
    | comment =>
      have h1 : hostsLoop path (SSHLine.comment :: rest) hosts
          = hostsLoop path rest hosts := rfl
      rw [h1, ih hosts hwfr, docAliases_cons_comment, extractDoc_cons_comment]
    | directive p v => exact absurd hwfl (fun h => h)
    | sec p v cfg =>
      cases v with
      | nonstr r => exact absurd hwfl (fun h => h)
      | str a =>
        obtain ⟨hp, hinner, hnd, hsome⟩ := hwfl
        subst hp
        obtain ⟨data, hdata⟩ := Option.isSome_iff_exists.mp hsome
        rw [hostsLoop_sec_host, readSection_ok path a cfg hinner []]
        simp only []
        rw [hdata]
        simp only []
        rw [docAliases_cons_stanza, extractDoc_cons_stanza a cfg rest data hdata]
        simp only [firstDupFrom]
        by_cases hdup : (hget hosts a).isSome = true
        · have hmem : a ∈ hostKeys hosts := (hget_isSome_iff hosts a).mp hdup
          rw [if_pos hdup, if_pos hmem]
        · have hmem : a ∉ hostKeys hosts :=
            fun hm => hdup ((hget_isSome_iff hosts a).mpr hm)
          rw [if_neg hdup, if_neg hmem]
          rw [ih (hosts ++ [(a, data)]) hwfr]
          have hcongr : firstDupFrom (hostKeys (hosts ++ [(a, data)])) (docAliases rest)
              = firstDupFrom (a :: hostKeys hosts) (docAliases rest) := by
            apply firstDupFrom_congr
            intro x
            rw [hostKeys_append]
            have h1 : hostKeys [(a, data)] = [a] := rfl
            rw [h1]
            constructor
            · intro hx
              rcases List.mem_append.mp hx with hl | hr
              · exact List.mem_cons_of_mem _ hl
              · exact List.mem_cons.mpr (Or.inl (List.mem_singleton.mp hr))
            · intro hx
              rcases List.mem_cons.mp hx with he | hl
              · exact List.mem_append.mpr (Or.inr (List.mem_singleton.mpr he))
              · exact List.mem_append.mpr (Or.inl hl)
          rw [hcongr]
          cases firstDupFrom (a :: hostKeys hosts) (docAliases rest) with
          | some h => rfl
          | none =>
            simp [List.append_assoc]

/-- Claim C4 as stated is false: this document contains a duplicated host
alias, yet parsing fails with `EntryNotAHostKeyValuePairError` for the
earlier non-`Host` line, not with the duplicate-host error — the loop
reports the first failure it reaches, so position does matter. -/
theorem claim_C4_counterexample :
    ¬ (docAliases dupExampleDoc).Nodup ∧
    getSSHConfig (("/home/u/.ssh/config").toList) (SSHFileState.parsed dupExampleDoc)
      = Result.err GetSSHConfigError.EntryNotAHostKeyValuePairError
          (notHostReason (("/home/u/.ssh/config").toList) (("Port").toList)
            (jsonStringify (SSHValue.str (("22").toList)))) false :=
  ⟨by decide, by decide⟩

/-- Claim C4 amended: for every configuration document all of whose lines
are well-formed (comments or valid `Host` stanzas) and which declares a
repeated host alias, parsing always fails with the duplicate-host error
naming the first repeated alias, regardless of where in the document the
duplicate occurs; the alias occurs in the error's reason text. -/
theorem claim_C4_amended (path : Str) (doc : List SSHLine) (h : Str)
    (hwf : ∀ l ∈ doc, wfLine l)
    (hdup : firstDupFrom [] (docAliases doc) = some h) :
    getSSHConfig path (SSHFileState.parsed doc)
      = Result.err GetSSHConfigError.DuplicateHostError (dupReason path h) false ∧
    List.IsInfix h (dupReason path h) := by
  constructor
  · have hm := hostsLoop_wf path doc [] hwf
    show hostsLoop path doc [] = _
    rw [hm]
    have hk : hostKeys ([] : SSHConfigHosts) = [] := rfl
    rw [hk, hdup]
  · refine ⟨("ssh file \x27").toList ++ path
      ++ ("\x27 contains duplicate Hosts named \x27").toList, ("\x27").toList, ?_⟩
    simp [dupReason, List.append_assoc]

/-- Witness for the amended C4. -/
theorem claim_C4_witness :
    getSSHConfig (("/c").toList) (SSHFileState.parsed dupWfDoc)
      = Result.err GetSSHConfigError.DuplicateHostError
          (dupReason (("/c").toList) (("gh").toList)) false ∧
    List.IsInfix (("gh").toList) (dupReason (("/c").toList) (("gh").toList)) :=
  claim_C4_amended (("/c").toList) dupWfDoc (("gh").toList) (by decide) (by decide)

theorem docAliases_cons (l : SSHLine) (rest : List SSHLine) :
    docAliases (l :: rest) =
      (match lineAlias l with
       | none => docAliases rest
       | some b => b :: docAliases rest) := by
  cases hla : lineAlias l with
  | none => simp [docAliases, List.filterMap_cons, hla]
  | some b => simp [docAliases, List.filterMap_cons, hla]

theorem extractDoc_cons (l : SSHLine) (rest : List SSHLine) :
    extractDoc (l :: rest) =
      (match extractLine l with
       | none => extractDoc rest
       | some bd => bd :: extractDoc rest) := by
  cases hel : extractLine l with
  | none => simp [extractDoc, List.filterMap_cons, hel]
  | some bd => simp [extractDoc, List.filterMap_cons, hel]

theorem stanza_mem_aliases (doc : List SSHLine) (a : Str) (cfg : List InnerLine)
    (h : SSHLine.sec (("Host").toList) (SSHValue.str a) cfg ∈ doc) :
    a ∈ docAliases doc := by
  apply List.mem_filterMap.mpr
  refine ⟨SSHLine.sec (("Host").toList) (SSHValue.str a) cfg, h, ?_⟩
  simp [lineAlias]

theorem extractLine_alias (l : SSHLine) (b : Str) (d : SSHSection)
    (h : extractLine l = some (b, d)) : lineAlias l = some b := by
  cases l with
  | comment => cases h
  | directive p v => cases h
  | sec p v cfg =>
    cases v with
    | nonstr r => cases h
    | str a =>
      by_cases hp : p = ("Host").toList
      · subst hp
        simp only [extractLine, if_pos rfl] at h
        rcases Option.map_eq_some'.mp h with ⟨d2, hd2, hpair⟩
        have hab : a = b := congrArg Prod.fst hpair
        subst hab
        simp [lineAlias]
      · simp only [extractLine, if_neg hp] at h
        cases h

theorem hget_extractDoc_not_mem (doc : List SSHLine) (a : Str)
    (h : a ∉ docAliases doc) : hget (extractDoc doc) a = none := by
  induction doc with
  | nil => rfl
  | cons l rest ih =>
    have hr : a ∉ docAliases rest := by
      intro hm
      apply h
      rw [docAliases_cons]
      cases lineAlias l with
      | none => exact hm
      | some b => exact List.mem_cons_of_mem _ hm
    cases hel : extractLine l with
    | none =>
      rw [extractDoc_cons, hel]
      exact ih hr
    | some bd =>
      obtain ⟨b, d⟩ := bd
      have hb : lineAlias l = some b := extractLine_alias l b d hel
      have hba : ¬ b = a := by
        intro he
        apply h
        rw [docAliases_cons, hb, he]
        exact List.mem_cons_self _ _
      rw [extractDoc_cons, hel]
      simp only [hget, if_neg hba]
      exact ih hr

theorem hget_extractDoc (doc : List SSHLine) (a : Str) (cfg : List InnerLine)
    (hnd : (docAliases doc).Nodup)
    (hmem : SSHLine.sec (("Host").toList) (SSHValue.str a) cfg ∈ doc) :
    hget (extractDoc doc) a = sectionSchemaParse (collectKV cfg []) := by
  induction doc with
  | nil => cases hmem
  | cons l rest ih =>
    rcases List.mem_cons.mp hmem with heq | hmem2
    · subst heq
      rw [docAliases_cons_stanza] at hnd
      have hna : a ∉ docAliases rest := (List.nodup_cons.mp hnd).1
      cases hsp : sectionSchemaParse (collectKV cfg []) with
      | none =>
        have hel : extractLine (SSHLine.sec (("Host").toList) (SSHValue.str a) cfg)
            = none := by
          simp [extractLine, hsp]
        rw [extractDoc_cons, hel]
        exact hget_extractDoc_not_mem rest a hna
      | some d =>
        have hel : extractLine (SSHLine.sec (("Host").toList) (SSHValue.str a) cfg)
            = some (a, d) := by
          simp [extractLine, hsp]
        rw [extractDoc_cons, hel]
        simp [hget]
    · have hnd2 : (docAliases rest).Nodup := by
        rw [docAliases_cons] at hnd
        cases hla : lineAlias l with
        | none => rw [hla] at hnd; exact hnd
        | some b => rw [hla] at hnd; exact (List.nodup_cons.mp hnd).2
      cases hel : extractLine l with
      | none =>
        rw [extractDoc_cons, hel]
        exact ih hnd2 hmem2
      | some bd =>
        obtain ⟨b, d⟩ := bd
        have hb := extractLine_alias l b d hel
        have hba : ¬ b = a := by
          intro he
          subst he
          have hmemA : b ∈ docAliases rest := stanza_mem_aliases rest b cfg hmem2
          rw [docAliases_cons, hb] at hnd
          exact (List.nodup_cons.mp hnd).1 hmemA
        rw [extractDoc_cons, hel]
        simp only [hget, if_neg hba]
        exact ih hnd2 hmem2

/-- Claim C7: a well-formed configuration document with unique host
aliases parses successfully into exactly the materialization of its
stanzas, and parsing is lossless — each stanza's alias maps to a section
the schema accepted, and every declared `HostName`, `User` and
`IdentityFile` value reappears unchanged in that section. -/
theorem claim_C7 (path : Str) (doc : List SSHLine)
    (hwf : ∀ l ∈ doc, wfLine l) (hnodup : (docAliases doc).Nodup) :
    getSSHConfig path (SSHFileState.parsed doc) = Result.ok (extractDoc doc) ∧
    ∀ (a : Str) (cfg : List InnerLine),
      SSHLine.sec (("Host").toList) (SSHValue.str a) cfg ∈ doc →
      ∃ sect, hget (extractDoc doc) a = some sect ∧
        sectionSchemaParse (collectKV cfg []) = some sect ∧
        ∀ (k v : Str), InnerLine.entry k (SSHValue.str v) ∈ cfg →
          ((k = ("HostName").toList → sect.HostName = v) ∧
           (k = ("User").toList → sect.User = v) ∧
           (k = ("IdentityFile").toList → sect.IdentityFile = some v)) := by
  constructor
  · have hm := hostsLoop_wf path doc [] hwf
    have hd : firstDupFrom (hostKeys ([] : SSHConfigHosts)) (docAliases doc) = none :=
      firstDupFrom_none (docAliases doc) [] hnodup (fun x _ hx => by cases hx)
    show hostsLoop path doc [] = _
    rw [hm, hd]
    simp
  · intro a cfg hmem
    have hwfl := hwf _ hmem
    obtain ⟨-, hinner, hnd, hsome⟩ := hwfl
    obtain ⟨sect, hsect⟩ := Option.isSome_iff_exists.mp hsome
    refine ⟨sect, ?_, hsect, ?_⟩
    · rw [hget_extractDoc doc a cfg hnodup hmem, hsect]
    · intro k v hkv
      have hval : rget (collectKV cfg []) k = some v := by
        rw [collectKV_rget, lastEntryVal_of_nodup cfg k v hnd hkv]
      cases hhn : rget (collectKV cfg []) (("HostName").toList) with
      | none =>
        rw [sectionSchemaParse, hhn] at hsect
        cases hsect
      | some hn =>
        cases hhu : rget (collectKV cfg []) (("User").toList) with
        | none =>
          rw [sectionSchemaParse, hhn, hhu] at hsect
          cases hsect
        | some u =>
          rw [sectionSchemaParse, hhn, hhu] at hsect
          injection hsect with hsect2
          refine ⟨?_, ?_, ?_⟩ <;> intro hk <;> subst hk
          · rw [hval] at hhn
            injection hhn with hv
            rw [← hsect2, hv]
          · rw [hval] at hhu
            injection hhu with hv
            rw [← hsect2, hv]
          · rw [← hsect2]
            exact hval

/-- Witness for C7 over the three-stanza sample document. -/
theorem claim_C7_witness :
    getSSHConfig (("/c").toList) (SSHFileState.parsed threeHostDoc)
      = Result.ok (extractDoc threeHostDoc) :=
  (claim_C7 (("/c").toList) threeHostDoc (by decide) (by decide)).1
